import Mathlib

/-!
Shallow embedding of the command-shell sources (`src/main.rs`, `src/parser.rs`,
`src/commands.rs`).

Modelling conventions:
* Rust `String`/`&str` values are Lean `String`s; character-level operations
  (`chars()`, `contains(char)`, `trim_matches`) are modelled on the
  character list `String.data`, which matches Rust's `char`-based semantics.
* The process environment (`std::env::var`) is a parameter
  `env : String → Option String`; the home directory (`dirs::home_dir()`) is a
  parameter `home : Option String`.
* Whether `env::set_current_dir` succeeds for a path, and whether
  `Command::spawn` succeeds for a program name, are Boolean oracles
  (`dirOk`, `ok`) standing for the filesystem state.
* Rust `while let` loops that consume a character iterator are written with an
  explicit fuel argument; the callers pass the input length as fuel, which is
  always enough because every iteration consumes at least one character.
* `char::is_alphabetic` / `char::is_alphanumeric` are modelled with the ASCII
  classifiers `Char.isAlpha` / `Char.isAlphanum` (all inputs of interest are
  ASCII).
* `PathBuf::join` applied to the relative remainder of a `~/…` path is
  modelled as `home ++ "/" ++ rest`.
-/

/-- Rust `str::contains(char)`, modelled on the character list. -/
def strContains (s : String) (c : Char) : Bool := s.data.contains c

/-- Rust `str::starts_with(pat)`, modelled on the character list. -/
def strStartsWith (s pat : String) : Bool := pat.data.isPrefixOf s.data

/-- The slice `&s[n..]` for a character offset `n` (all sliced strings in the
sources are ASCII, so byte and character offsets agree). -/
def strDrop (s : String) (n : Nat) : String := String.mk (s.data.drop n)

/-- Rust `str::trim`: remove leading and trailing whitespace. -/
def strTrim (s : String) : String :=
  String.mk (((s.data.dropWhile Char.isWhitespace).reverse.dropWhile Char.isWhitespace).reverse)

/-- The character loop behind Rust `str::split(char)`: split at every
separator, keeping empty pieces (`"a||b"` gives `["a", "", "b"]`). -/
def strSplitGo (p : Char → Bool) : List Char → List Char → List String
  | [], cur => [String.mk cur]
  | c :: rest, cur =>
    if p c then String.mk cur :: strSplitGo p rest []
    else strSplitGo p rest (cur ++ [c])

/-- Rust `str::split(char)` (specialised to a character test). -/
def strSplit (s : String) (p : Char → Bool) : List String := strSplitGo p s.data []

/-- Rust `str::trim_matches(c)`: strip every leading and every trailing
occurrence of the character `c`. -/
def trim_matches (c : Char) (s : String) : String :=
  String.mk (((s.data.dropWhile (fun d => d == c)).reverse.dropWhile (fun d => d == c)).reverse)

/-- `alias_def.find('=')` together with the slices `&a[..eq_pos]` and
`&a[eq_pos + 1 ..]`: split a string at its first `=`, returning `none` when it
has no `=` (in the sources this branch is guarded by `contains('=')`). -/
def splitAtEq (a : String) : Option (String × String) :=
  match a.data.dropWhile (fun d => !(d == '=')) with
  | [] => none
  | _ :: post => some (String.mk (a.data.takeWhile (fun d => !(d == '='))), String.mk post)

/-- The whitespace test of the token separators: space or tab. -/
def isSpaceTab (c : Char) : Bool := c == ' ' || c == '\t'

/-- `expand_tilde` from `src/parser.rs` (the copy in `src/main.rs` is textually
identical): `~` becomes the home directory, `~/rest` becomes the home
directory joined with `rest`, anything else is returned unchanged; with no
home directory the path is returned unchanged. -/
def expand_tilde (home : Option String) (path : String) : String :=
  if path = "~" then
    match home with
    | some h => h
    | none => path
  else if strStartsWith path "~/" then
    match home with
    | some h => h ++ "/" ++ strDrop path 2
    | none => path
  else path

/-- `next_char.is_alphabetic() || next_char == '_'` from `expand_variables`. -/
def isIdentStart (c : Char) : Bool := c.isAlpha || c == '_'

/-- `next_char.is_alphanumeric() || next_char == '_'` from `expand_variables`. -/
def isIdentChar (c : Char) : Bool := c.isAlphanum || c == '_'

/-- The character loop of `expand_variables` (`src/parser.rs:17-71`).
`acc` is the `result` string being built.  On `$`: a following `{` starts a
brace-delimited name read up to the next `}` (appending `${NAME` literally
when no `}` follows); a following identifier-start character starts a bare
name read while alphanumeric-or-underscore; anything else (or end of input)
emits the `$` literally.  A named variable is replaced by its environment
value, or by nothing when unset. -/
def expand_variablesGo (env : String → Option String) :
    Nat → List Char → String → String
  | _, [], acc => acc
  | 0, _ :: _, acc => acc
  | fuel + 1, c :: rest, acc =>
    if c = '$' then
      match rest with
      | [] => acc.push c
      | next :: rest1 =>
        if next = '{' then
          let name := rest1.takeWhile (fun d => !(d == '}'))
          let after := rest1.dropWhile (fun d => !(d == '}'))
          match after with
          | [] => acc ++ "$\x7b" ++ String.mk name
          | _ :: rest2 =>
            expand_variablesGo env fuel rest2 (acc ++ ((env (String.mk name)).getD ""))
        else if isIdentStart next then
          let name := rest.takeWhile isIdentChar
          let rest2 := rest.dropWhile isIdentChar
          expand_variablesGo env fuel rest2 (acc ++ ((env (String.mk name)).getD ""))
        else
          expand_variablesGo env fuel rest (acc.push c)
    else
      expand_variablesGo env fuel rest (acc.push c)

/-- `expand_variables` from `src/parser.rs`. -/
def expand_variables (env : String → Option String) (input : String) : String :=
  expand_variablesGo env input.data.length input.data ""

namespace Parser

/-- The character loop of `parse_arguments` (`src/parser.rs:73-117`).
State: `inQuotes`, the opening `quoteChar` (initially `'"'`), and the
characters `cur` of the token being accumulated.  An unquoted `"` or `'`
opens a quoted region closed only by the same character; unquoted space/tab
ends the current token (if non-empty) and the following run of spaces/tabs is
skipped; every other character is appended to the token.  A finished token is
passed through `expand_variables` and then `expand_tilde`. -/
def parse_argumentsGo (env : String → Option String) (home : Option String) :
    Nat → List Char → Bool → Char → List Char → List String
  | _, [], _, _, cur =>
    if cur = [] then [] else [expand_tilde home (expand_variables env (String.mk cur))]
  | 0, _ :: _, _, _, cur =>
    if cur = [] then [] else [expand_tilde home (expand_variables env (String.mk cur))]
  | fuel + 1, c :: rest, inQuotes, quoteChar, cur =>
    if (c = '"' ∨ c = '\'') ∧ ¬inQuotes then
      parse_argumentsGo env home fuel rest true c cur
    else if inQuotes ∧ c = quoteChar then
      parse_argumentsGo env home fuel rest false quoteChar cur
    else if (c = ' ' ∨ c = '\t') ∧ ¬inQuotes then
      let rest' := rest.dropWhile isSpaceTab
      if cur = [] then
        parse_argumentsGo env home fuel rest' inQuotes quoteChar []
      else
        expand_tilde home (expand_variables env (String.mk cur)) ::
          parse_argumentsGo env home fuel rest' inQuotes quoteChar []
    else
      parse_argumentsGo env home fuel rest inQuotes quoteChar (cur ++ [c])

/-- `parse_arguments` from `src/parser.rs`. -/
def parse_arguments (env : String → Option String) (home : Option String)
    (input : String) : List String :=
  parse_argumentsGo env home input.data.length input.data false '"' []

end Parser

namespace MainRs

/-- The character loop of the `parse_arguments` variant in `src/main.rs`
(lines 315-354): only `"` toggles quoting (single quotes are ordinary
characters), finished tokens get tilde expansion but no variable expansion. -/
def parse_argumentsGo (home : Option String) :
    Nat → List Char → Bool → List Char → List String
  | _, [], _, cur =>
    if cur = [] then [] else [expand_tilde home (String.mk cur)]
  | 0, _ :: _, _, cur =>
    if cur = [] then [] else [expand_tilde home (String.mk cur)]
  | fuel + 1, c :: rest, inQuotes, cur =>
    if c = '"' ∧ ¬inQuotes then
      parse_argumentsGo home fuel rest true cur
    else if c = '"' ∧ inQuotes then
      parse_argumentsGo home fuel rest false cur
    else if (c = ' ' ∨ c = '\t') ∧ ¬inQuotes then
      let rest' := rest.dropWhile isSpaceTab
      if cur = [] then
        parse_argumentsGo home fuel rest' inQuotes []
      else
        expand_tilde home (String.mk cur) :: parse_argumentsGo home fuel rest' inQuotes []
    else
      parse_argumentsGo home fuel rest inQuotes (cur ++ [c])

/-- `parse_arguments` from `src/main.rs`. -/
def parse_arguments (home : Option String) (input : String) : List String :=
  parse_argumentsGo home input.data.length input.data false []

end MainRs

namespace MainRs

/-- What one `handle_line` dispatch (`src/main.rs:425-558`) decides to do with
a read line.  The constructors record which branch of the `match` on the first
token is taken and with which data; `runPipeline` carries the per-stage
command vectors, `runCommand` the final single command vector. -/
inductive Action where
  | emptyLine
  | exitLoop
  | aliasList
  | aliasDefine (name value : String)
  | aliasUsage
  | editInvoked (args : List String)
  | cdTo (target : String)
  | runPipeline (cmds : List (List String))
  | runCommand (vector : List String)
  deriving DecidableEq

/-- The per-stage alias splice of the pipeline branch
(`src/main.rs:520-528`): re-parse the stage, and if its first token is an
alias name, splice the parsed alias value in place of that token. -/
def spliceAlias (aliases : String → Option String) (home : Option String)
    (parsed : List String) : List String :=
  match parsed with
  | [] => []
  | p0 :: rest =>
    match aliases p0 with
    | some v => parse_arguments home v ++ rest
    | none => p0 :: rest

/-- `handle_line` from `src/main.rs` for a successfully read line, as the
dispatch decision it makes.  `none` models the panic of the unchecked
`parts[0]` index (reached when the tokenizer returns no tokens for a
non-empty trimmed line, and likewise for `final_args[0]` after an alias
expands to no tokens). -/
def handle_line (aliases : String → Option String) (home : Option String)
    (line : String) : Option Action :=
  let input := strTrim line
  if input = "" then some Action.emptyLine
  else
    match parse_arguments home input with
    | [] => none
    | command :: args =>
      if command = "exit" then some Action.exitLoop
      else if command = "alias" then
        match args with
        | [] => some Action.aliasList
        | [a] =>
          if strContains a '=' then
            match splitAtEq a with
            | some (name, value) => some (Action.aliasDefine name (trim_matches '"' value))
            | none => some Action.aliasUsage
          else some Action.aliasUsage
        | _ => some Action.aliasUsage
      else if command = "edit" then some (Action.editInvoked args)
      else if command = "cd" then
        some (Action.cdTo (match args with
          | [] => home.getD "/"
          | a :: _ => a))
      else
        let expandedCommand := (aliases command).getD command
        if strContains input '|' then
          some (Action.runPipeline
            ((strSplit input (fun d => d == '|')).map
              (fun part => spliceAlias aliases home (parse_arguments home (strTrim part)))))
        else if expandedCommand ≠ command then
          match parse_arguments home expandedCommand ++ args with
          | [] => none
          | v => some (Action.runCommand v)
        else some (Action.runCommand (command :: args))

end MainRs

namespace Commands

/-- Result of one invocation of the `cd` builtin (`src/commands.rs:90-137`):
success (recording whether the new directory is printed, which happens
exactly for the `cd -` form), the `cd -: No previous directory` error, or a
`set_current_dir` failure reported with the attempted target. -/
inductive CdOutcome where
  | success (printedTarget : Bool)
  | noPrevDir
  | chdirError (target : String)
  deriving DecidableEq

/-- The directory state `cd` reads and writes: the process working directory
(`env::current_dir` / `env::set_current_dir`) and the `PREVIOUS_DIR` global. -/
structure CdState where
  cwd : String
  prev : Option String
  deriving DecidableEq

/-- The target-directory computation of `cd` for a non-`-` argument
(`src/commands.rs:111-123`): `~`-prefixed paths are joined onto the home
directory (note the slice `&path[2..]` even for paths that merely start with
`~`), everything else is taken literally.  `home` stands for
`dirs::home_dir().unwrap_or(PathBuf::from("/"))`. -/
def resolveArg (home : String) (path : String) : String :=
  if strStartsWith path "~" then
    if path = "~" then home else home ++ "/" ++ strDrop path 2
  else path

/-- The full target-directory computation of `cd` (`src/commands.rs:93-123`):
no argument means home, `-` means the recorded previous directory (`none`
when there is none, which makes `cd` return early), otherwise `resolveArg`. -/
def cdTarget (home : String) (st : CdState) (args : List String) : Option String :=
  match args with
  | [] => some home
  | a :: _ => if a = "-" then st.prev else some (resolveArg home a)

/-- The `cd` builtin (`src/commands.rs:90-137`).  On a successful directory
change the previous directory is set to the directory just vacated; on a
failed change (or the missing-previous-directory early return) the state is
returned untouched.  The `Mutex` around `PREVIOUS_DIR` is modelled as always
lockable (the shell is single-threaded). -/
def cd (dirOk : String → Bool) (home : String) (st : CdState) (args : List String) :
    CdState × CdOutcome :=
  match cdTarget home st args with
  | none => (st, CdOutcome.noPrevDir)
  | some target =>
    if dirOk target then
      ({ cwd := target, prev := some st.cwd },
        CdOutcome.success (decide (args ≠ [] ∧ args.headD "" = "-")))
    else (st, CdOutcome.chdirError target)

/-- What the `alias` arm of `handle_builtin_command`
(`src/commands.rs:254-270`) did: listed the table, defined/overwrote an
entry, or printed the usage error. -/
inductive AliasAction where
  | listed
  | defined (name value : String)
  | usage
  deriving DecidableEq

/-- The `alias` arm of `handle_builtin_command` (`src/commands.rs:254-270`):
a single argument containing `=` is split at its first `=`; the name is the
text before it and the stored value is the text after it with
`trim_matches('"')` applied.  Returns the updated alias table and the action
taken. -/
def alias_builtin (aliases : String → Option String) (args : List String) :
    (String → Option String) × AliasAction :=
  match args with
  | [] => (aliases, AliasAction.listed)
  | [a] =>
    if strContains a '=' then
      match splitAtEq a with
      | some (name, value) =>
        let stored := trim_matches '"' value
        (fun s => if s = name then some stored else aliases s,
          AliasAction.defined name stored)
      | none => (aliases, AliasAction.usage)
    else (aliases, AliasAction.usage)
  | _ => (aliases, AliasAction.usage)

/-- The final command vector built by the default arm of
`execute_single_command` (`src/commands.rs:138-172`) on the non-pipeline path
(`allow_pipes && full_input.contains('|')` false): one alias lookup on the
command name; if it yields a different string, that string is re-tokenized
and the original arguments are appended; otherwise the command runs
unchanged.  `none` models the panic of `final_args[0]` when the alias
expands to no tokens and there are no arguments. -/
def execute_single_vector (aliases : String → Option String)
    (env : String → Option String) (home : Option String)
    (command : String) (args : List String) : Option (List String) :=
  let expandedCommand := (aliases command).getD command
  if expandedCommand ≠ command then
    match Parser.parse_arguments env home expandedCommand ++ args with
    | [] => none
    | v => some v
  else some (command :: args)

/-- How one standard stream of a spawned stage is wired. -/
inductive IoSpec where
  | inherit
  | piped
  | fromStage (j : Nat)
  deriving DecidableEq

/-- The configuration a stage is spawned with. -/
structure SpawnSpec where
  prog : String
  args : List String
  stdin : IoSpec
  stdout : IoSpec
  stderr : IoSpec
  deriving DecidableEq

/-- Observable process events of the pipeline executor, in program order. -/
inductive PipeEvent where
  | spawned (i : Nat) (spec : SpawnSpec)
  | spawnError (prog : String)
  | waited (i : Nat)
  deriving DecidableEq

/-- Standard input wiring from the `previous_stdout` register: `some j` means
stage `j`'s captured standard output is connected, `none` means nothing is
set, so the parent's standard input is inherited. -/
def stdinOf : Option Nat → IoSpec
  | some j => IoSpec.fromStage j
  | none => IoSpec.inherit

/-- The spawn loop of `execute_piped_commands` (`src/commands.rs:194-227`).
`n` is `commands.len()`, `i` the enumerate index, `prev` the
`previous_stdout` register (as the index of the stage it was captured from),
`children` the spawn-order list of spawned stage indices.  Returns the events
emitted so far, the final `children`, and whether a spawn failure aborted the
loop (the Rust `return`). -/
def pipedGo (ok : String → Bool) (n : Nat) :
    List (List String) → Nat → Option Nat → List Nat →
      List PipeEvent × List Nat × Bool
  | [], _, _, children => ([], children, false)
  | cmd :: rest, i, prev, children =>
    match cmd with
    | [] => pipedGo ok n rest (i + 1) prev children
    | prog :: cargs =>
      let spec : SpawnSpec :=
        { prog := prog, args := cargs, stdin := stdinOf prev,
          stdout := if i = n - 1 then IoSpec.inherit else IoSpec.piped,
          stderr := IoSpec.inherit }
      if ok prog then
        let prev' : Option Nat := if i = n - 1 then none else some i
        match pipedGo ok n rest (i + 1) prev' (children ++ [i]) with
        | (evs, ch, aborted) => (PipeEvent.spawned i spec :: evs, ch, aborted)
      else ([PipeEvent.spawnError prog], children, true)

/-- `execute_piped_commands` (`src/commands.rs:177-244`) as its event trace.
An empty pipeline does nothing; a single command vector goes through
`execute_command` (inherited standard output and error, spawn then wait); a
multi-stage pipeline spawns stages left to right and then waits for every
spawned child in spawn order — unless a spawn failed, in which case the Rust
`return` skips the wait loop entirely. -/
def execute_piped_commands (ok : String → Bool) (cmds : List (List String)) :
    List PipeEvent :=
  if cmds = [] then []
  else if cmds.length = 1 then
    match cmds.headD [] with
    | [] => []
    | prog :: cargs =>
      if ok prog then
        [PipeEvent.spawned 0
          { prog := prog, args := cargs, stdin := IoSpec.inherit,
            stdout := IoSpec.inherit, stderr := IoSpec.inherit },
          PipeEvent.waited 0]
      else [PipeEvent.spawnError prog]
  else
    match pipedGo ok cmds.length cmds 0 none [] with
    | (evs, children, aborted) =>
      if aborted then evs else evs ++ children.map PipeEvent.waited

/-- The stage-by-stage wiring the executor is supposed to produce: stage `i`
reads from `prev`, writes piped except for the last stage, and the next
stage reads from this one exactly when it was piped. -/
def expectedSpawns (n : Nat) : List (List String) → Nat → Option Nat → List PipeEvent
  | [], _, _ => []
  | cmd :: rest, i, prev =>
    PipeEvent.spawned i
      { prog := cmd.headD "", args := cmd.tail, stdin := stdinOf prev,
        stdout := if i = n - 1 then IoSpec.inherit else IoSpec.piped,
        stderr := IoSpec.inherit } ::
      expectedSpawns n rest (i + 1) (if i = n - 1 then none else some i)

end Commands

/-! Helper lemmas. -/

theorem takeWhile_append_of_all {α : Type} {p : α → Bool} :
    ∀ (l1 l2 : List α), (∀ c ∈ l1, p c = true) →
      (l1 ++ l2).takeWhile p = l1 ++ l2.takeWhile p := by
  intro l1 l2 h
  induction l1 with
  | nil => simp
  | cons a l1 ih =>
    have ha : p a = true := h a (by simp)
    simp only [List.cons_append, List.takeWhile_cons_of_pos ha]
    rw [ih (fun c hc => h c (by simp [hc]))]

theorem dropWhile_append_of_all {α : Type} {p : α → Bool} :
    ∀ (l1 l2 : List α), (∀ c ∈ l1, p c = true) →
      (l1 ++ l2).dropWhile p = l2.dropWhile p := by
  intro l1 l2 h
  induction l1 with
  | nil => simp
  | cons a l1 ih =>
    have ha : p a = true := h a (by simp)
    simp only [List.cons_append, List.dropWhile_cons_of_pos ha]
    exact ih (fun c hc => h c (by simp [hc]))

theorem strContains_append_eq (name value : String) :
    strContains (name ++ "=" ++ value) '=' = true := by
  obtain ⟨l1⟩ := name
  obtain ⟨l2⟩ := value
  show (({ data := l1 } ++ "=" ++ { data := l2 } : String)).data.contains '=' = true
  have : (({ data := l1 } ++ "=" ++ { data := l2 } : String)).data = l1 ++ '=' :: l2 := by
    simp [String.data_append]
  rw [this]
  exact List.elem_eq_true_of_mem (by simp)

theorem splitAtEq_append (name value : String) (hname : ∀ c ∈ name.data, c ≠ '=') :
    splitAtEq (name ++ "=" ++ value) = some (name, value) := by
  obtain ⟨l1⟩ := name
  obtain ⟨l2⟩ := value
  have hdata : (({ data := l1 } ++ "=" ++ { data := l2 } : String)).data = l1 ++ '=' :: l2 := by
    simp [String.data_append]
  have hall : ∀ c ∈ l1, (!(c == '=')) = true := by
    intro c hc
    have := hname c hc
    simp [this]
  unfold splitAtEq
  rw [hdata, dropWhile_append_of_all l1 ('=' :: l2) hall,
    takeWhile_append_of_all l1 ('=' :: l2) hall]
  simp [List.dropWhile_cons, List.takeWhile_cons]

/-- Tokenizing a whitespace-only character list (from any state with an empty
current token) yields no tokens. -/
theorem parse_argumentsGo_ws (env : String → Option String) (home : Option String)
    (fuel : Nat) (quoteChar : Char) (l : List Char)
    (h : ∀ c ∈ l, c = ' ' ∨ c = '\t') :
    Parser.parse_argumentsGo env home fuel l false quoteChar [] = [] := by
  cases l with
  | nil => cases fuel <;> simp [Parser.parse_argumentsGo]
  | cons c rest =>
    cases fuel with
    | zero => simp [Parser.parse_argumentsGo]
    | succ fuel =>
      have hdrop : rest.dropWhile isSpaceTab = [] := by
        rw [List.dropWhile_eq_nil_iff]
        intro x hx
        rcases h x (by simp [hx]) with h1 | h1 <;> simp [isSpaceTab, h1]
      have hstep : Parser.parse_argumentsGo env home (fuel + 1) (c :: rest) false quoteChar [] =
          Parser.parse_argumentsGo env home fuel [] false quoteChar [] := by
        rcases h c (by simp) with h1 | h1 <;> subst h1 <;>
          simp [Parser.parse_argumentsGo, hdrop]
      rw [hstep]
      cases fuel <;> simp [Parser.parse_argumentsGo]

/-! Claim theorems. -/

/-- C1: tokenization (`parse_arguments`, src/parser.rs:73-117) scans left to
right with an `in_quotes` flag; `"` and `'` both open a quoted region closed
only by the same character (`'a"b'` is the single token `a"b`, and adjacent
quoted pieces concatenate: `"ab"cd` is `abcd`); outside quotes a run of
spaces and tabs is a single separator; a trailing unterminated quote is
accepted silently with the accumulated text as the final token; and an input
with no non-whitespace characters yields no tokens. -/
theorem C1_tokenization (s : String) (hws : ∀ c ∈ s.data, c = ' ' ∨ c = '\t') :
    Parser.parse_arguments (fun _ => none) none "'a\"b'" = ["a\"b"]
    ∧ Parser.parse_arguments (fun _ => none) none "\"ab\"cd" = ["abcd"]
    ∧ Parser.parse_arguments (fun _ => none) none "a \t  b" = ["a", "b"]
    ∧ Parser.parse_arguments (fun _ => none) none "\"a b\" c" = ["a b", "c"]
    ∧ Parser.parse_arguments (fun _ => none) none "\"ab" = ["ab"]
    ∧ Parser.parse_arguments (fun _ => none) none s = [] := by
  refine ⟨by decide, by decide, by decide, by decide, by decide, ?_⟩
  exact parse_argumentsGo_ws _ _ _ _ _ hws

/-- Witness for C1 at the whitespace-only input `" \t "`. -/
theorem C1_tokenization_witness :
    Parser.parse_arguments (fun _ => none) none " \t " = [] :=
  (C1_tokenization " \t " (by decide)).2.2.2.2.2

/-- C7: variable expansion (`expand_variables`, src/parser.rs:17-71) replaces
each `$NAME` (identifier-start then identifier characters) or `${NAME}` with
the environment value, or the empty string when unset; an unterminated `${`
passes through literally; a lone `$` not followed by an identifier start or
`{` is emitted literally. -/
theorem C7_variable_expansion :
    expand_variables (fun n => if n = "FOO" then some "bar" else none) "x=$FOO" = "x=bar"
    ∧ expand_variables (fun n => if n = "FOO" then some "bar" else none) "$\x7bFOO\x7d!" = "bar!"
    ∧ expand_variables (fun n => if n = "FOO" then some "bar" else none) "$BAZ" = ""
    ∧ expand_variables (fun n => if n = "FOO" then some "bar" else none) "$\x7bBAZ\x7d" = ""
    ∧ expand_variables (fun n => if n = "FOO" then some "bar" else none) "$\x7bFOO" = "$\x7bFOO"
    ∧ expand_variables (fun n => if n = "FOO" then some "bar" else none) "a$" = "a$"
    ∧ expand_variables (fun n => if n = "FOO" then some "bar" else none) "$1" = "$1"
    ∧ expand_variables (fun n => if n = "FOO" then some "bar" else none) "a$FOO$FOO-" = "abarbar-"
    ∧ expand_variables (fun n => if n = "FOO" then some "bar" else none) "$_FOO" = "" := by
  decide

/-- C10 (refuting the no-panic claim): the line `""` is non-empty after
trimming, yet the `src/main.rs` tokenizer returns no tokens for it, so the
unchecked `parts[0]` in `handle_line` is out of bounds — the interpreter loop
panics (modelled by `none`). -/
theorem C10_quote_line_panics :
    strTrim "\"\"" ≠ ""
    ∧ MainRs.parse_arguments none (strTrim "\"\"") = []
    ∧ MainRs.handle_line (fun _ => none) none "\"\"" = none := by
  decide

/-- C4 counterexample: `handle_line` (src/main.rs:425-558) does not split the
line on `;` — the line `echo hi ; exit` is dispatched once, as the command
`echo` with the arguments `hi`, `;`, `exit`, and the `exit` after the `;`
does not terminate the loop. -/
theorem C4_counterexample :
    MainRs.handle_line (fun _ => none) none "echo hi ; exit" =
      some (MainRs.Action.runCommand ["echo", "hi", ";", "exit"])
    ∧ MainRs.handle_line (fun _ => none) none "echo hi ; exit" ≠
      some MainRs.Action.exitLoop := by
  decide

/-- C4 amended: `handle_line` performs no splitting on `;`; the whole trimmed
line is dispatched once.  A line whose first token is `exit` ends the loop;
for any other non-builtin first token, when the line has no `|` and the first
token is not an alias, the single dispatch is the command vector of all the
line's tokens — `;` has no special meaning and never cuts off later tokens. -/
theorem C4_amended (aliases : String → Option String) (home : Option String) (line : String) :
    (∀ rest, MainRs.parse_arguments home (strTrim line) = "exit" :: rest →
      MainRs.handle_line aliases home line = some MainRs.Action.exitLoop)
    ∧ (∀ cmd args, MainRs.parse_arguments home (strTrim line) = cmd :: args →
      cmd ≠ "exit" → cmd ≠ "alias" → cmd ≠ "edit" → cmd ≠ "cd" →
      strContains (strTrim line) '|' = false → aliases cmd = none →
      MainRs.handle_line aliases home line = some (MainRs.Action.runCommand (cmd :: args))) := by
  constructor
  · intro rest hparse
    have hne : ¬(strTrim line = "") := by
      intro h0
      rw [h0] at hparse
      have h1 : MainRs.parse_arguments home "" = [] := rfl
      rw [h1] at hparse
      exact List.noConfusion hparse
    simp only [MainRs.handle_line]
    rw [if_neg hne, hparse]
    simp
  · intro cmd args hparse h1 h2 h3 h4 h5 h6
    have hne : ¬(strTrim line = "") := by
      intro h0
      rw [h0] at hparse
      have he : MainRs.parse_arguments home "" = [] := rfl
      rw [he] at hparse
      exact List.noConfusion hparse
    simp only [MainRs.handle_line]
    rw [if_neg hne, hparse]
    simp [h1, h2, h3, h4, h5, h6]

/-- Witness for C4 amended: a leading `exit` token ends the loop even with
trailing `;`-text, and a `;` inside a non-builtin line stays an ordinary
token of the single dispatched command. -/
theorem C4_amended_witness :
    MainRs.handle_line (fun _ => none) none "exit ; ls" = some MainRs.Action.exitLoop
    ∧ MainRs.handle_line (fun _ => none) none "ls -a ; exit" =
      some (MainRs.Action.runCommand ["ls", "-a", ";", "exit"]) :=
  ⟨(C4_amended (fun _ => none) none "exit ; ls").1 [";", "ls"] (by decide),
   (C4_amended (fun _ => none) none "ls -a ; exit").2 "ls" ["-a", ";", "exit"]
     (by decide) (by decide) (by decide) (by decide) (by decide) (by decide) rfl⟩

/-- C3 counterexample: when an alias's stored replacement is string-equal to
the alias name, `execute_single_command` skips re-tokenization and runs the
command unchanged, so the produced vector is not the tokenization of the
replacement: the token `a"b` aliased to `a"b` runs as `a"b`, while its
re-tokenization would be `ab`. -/
theorem C3_counterexample :
    Commands.execute_single_vector
        (fun s => if s = "a\"b" then some "a\"b" else none) (fun _ => none) none "a\"b" [] =
      some ["a\"b"]
    ∧ Parser.parse_arguments (fun _ => none) none "a\"b" = ["ab"]
    ∧ (["a\"b"] : List String) ≠ ["ab"] := by
  decide

/-- C3 amended: when the first token has an alias whose replacement differs
from the name (and the spliced vector is non-empty, avoiding the
`final_args[0]` panic), the dispatched vector is exactly the tokenization of
the replacement followed by the untouched original arguments — one expansion,
no further lookup on the result. -/
theorem C3_amended (aliases : String → Option String) (env : String → Option String)
    (home : Option String) (command v : String) (args : List String)
    (halias : aliases command = some v) (hv : v ≠ command)
    (hne : Parser.parse_arguments env home v ++ args ≠ []) :
    Commands.execute_single_vector aliases env home command args =
      some (Parser.parse_arguments env home v ++ args) := by
  simp only [Commands.execute_single_vector, halias, Option.getD_some]
  rw [if_pos hv]

/-- Witness for C3 amended: `ll` aliased to `ls -la`, invoked with `-h`,
gives exactly `[ls, -la, -h]` even though `ls` is itself aliased. -/
theorem C3_amended_witness :
    Commands.execute_single_vector
        (fun s => if s = "ll" then some "ls -la"
          else if s = "ls" then some "ls -x" else none)
        (fun _ => none) none "ll" ["-h"] = some ["ls", "-la", "-h"] := by
  have h := C3_amended
      (fun s => if s = "ll" then some "ls -la" else if s = "ls" then some "ls -x" else none)
      (fun _ => none) none "ll" "ls -la" ["-h"] (by decide) (by decide) (by decide)
  rw [h]
  decide

/-- C9 counterexample: `alias y=""x""` stores the value `x` — `trim_matches`
strips every layer of surrounding double quotes, not exactly one, so the
claimed stored value `"x"` is wrong. -/
theorem C9_counterexample :
    (Commands.alias_builtin (fun _ => none) ["y=\"\"x\"\""]).1 "y" = some "x"
    ∧ (Commands.alias_builtin (fun _ => none) ["y=\"\"x\"\""]).1 "y" ≠ some "\"x\"" := by
  decide

/-- C9 amended: a single `NAME=VALUE` argument defines or overwrites the
entry named by the text before the first `=`, and the stored value is the
text after it with all leading and all trailing double-quote characters
removed (Rust `trim_matches('"')`), not just one surrounding layer. -/
theorem C9_amended (aliases : String → Option String) (name value : String)
    (hname : ∀ c ∈ name.data, c ≠ '=') :
    (Commands.alias_builtin aliases [name ++ "=" ++ value]).1 name =
      some (trim_matches '"' value)
    ∧ (Commands.alias_builtin aliases [name ++ "=" ++ value]).2 =
      Commands.AliasAction.defined name (trim_matches '"' value) := by
  have hc := strContains_append_eq name value
  have hs := splitAtEq_append name value hname
  constructor <;> simp only [Commands.alias_builtin, hc, hs, if_true]

/-- Witness for C9 amended at `alias ll="ls -la"`: the stored value is
`ls -la` with the single quote layer removed. -/
theorem C9_amended_witness :
    (Commands.alias_builtin (fun _ => none) ["ll=\"ls -la\""]).1 "ll" = some "ls -la" := by
  have h := (C9_amended (fun _ => none) "ll" "\"ls -la\"" (by decide)).1
  have he : ("ll" ++ "=" ++ "\"ls -la\"" : String) = "ll=\"ls -la\"" := by decide
  rw [he] at h
  rw [h]
  decide

/-- Evaluation of `cd` when the target computation returns early with no
previous directory recorded. -/
theorem Commands.cd_eval_none (dirOk : String → Bool) (home : String)
    (st : Commands.CdState) (args : List String)
    (hct : Commands.cdTarget home st args = none) :
    Commands.cd dirOk home st args = (st, Commands.CdOutcome.noPrevDir) := by
  unfold Commands.cd
  rw [hct]

/-- Evaluation of `cd` once the target directory is determined. -/
theorem Commands.cd_eval_some (dirOk : String → Bool) (home : String)
    (st : Commands.CdState) (args : List String) (target : String)
    (hct : Commands.cdTarget home st args = some target) :
    Commands.cd dirOk home st args =
      if dirOk target = true then
        ({ cwd := target, prev := some st.cwd },
          Commands.CdOutcome.success (decide (args ≠ [] ∧ args.headD "" = "-")))
      else (st, Commands.CdOutcome.chdirError target) := by
  unfold Commands.cd
  rw [hct]

/-- C5: after every successful `cd` the previous directory equals the
directory just vacated, the previous directory is updated only on successful
`cd`, and starting at `A`, `cd B` then `cd -` returns to `A` while a further
`cd -` returns to `B` — the toggle covers exactly the two most recent
directories and never chains further back. -/
theorem C5_cd_dash_toggle (dirOk : String → Bool) (home A B : String) (p0 : Option String)
    (hA : dirOk A = true) (hB : dirOk B = true)
    (hBt : strStartsWith B "~" = false) (hBd : B ≠ "-") :
    (Commands.cd dirOk home ⟨A, p0⟩ [B]).1 = ⟨B, some A⟩
    ∧ (Commands.cd dirOk home ⟨B, some A⟩ ["-"]).1 = ⟨A, some B⟩
    ∧ (Commands.cd dirOk home ⟨A, some B⟩ ["-"]).1 = ⟨B, some A⟩
    ∧ (∀ st args st' pr, Commands.cd dirOk home st args =
        (st', Commands.CdOutcome.success pr) → st'.prev = some st.cwd)
    ∧ (∀ st args st' out, Commands.cd dirOk home st args = (st', out) →
        (∀ pr, out ≠ Commands.CdOutcome.success pr) → st' = st) := by
  refine ⟨?_, ?_, ?_, ?_, ?_⟩
  · simp [Commands.cd, Commands.cdTarget, Commands.resolveArg, hBd, hBt, hB]
  · simp [Commands.cd, Commands.cdTarget, hA]
  · simp [Commands.cd, Commands.cdTarget, hB]
  · intro st args st' pr h
    cases hct : Commands.cdTarget home st args with
    | none =>
      rw [Commands.cd_eval_none dirOk home st args hct] at h
      exact absurd (congrArg Prod.snd h).symm (by simp)
    | some target =>
      rw [Commands.cd_eval_some dirOk home st args target hct] at h
      by_cases hd : dirOk target = true
      · rw [if_pos hd] at h
        have h1 := congrArg Prod.fst h
        simp only [Prod.fst] at h1
        subst h1
        rfl
      · rw [if_neg hd] at h
        exact absurd (congrArg Prod.snd h).symm (by simp)
  · intro st args st' out h hns
    cases hct : Commands.cdTarget home st args with
    | none =>
      rw [Commands.cd_eval_none dirOk home st args hct] at h
      exact (congrArg Prod.fst h).symm
    | some target =>
      rw [Commands.cd_eval_some dirOk home st args target hct] at h
      by_cases hd : dirOk target = true
      · rw [if_pos hd] at h
        exact absurd (congrArg Prod.snd h).symm (hns _)
      · rw [if_neg hd] at h
        exact (congrArg Prod.fst h).symm

/-- Witness for C5 with directories `/a`, `/b`: the `cd B`, `cd -`, `cd -`
chain toggles between the two. -/
theorem C5_cd_dash_toggle_witness :
    (Commands.cd (fun s => s == "/a" || s == "/b") "/h" ⟨"/a", none⟩ ["/b"]).1 =
      ⟨"/b", some "/a"⟩
    ∧ (Commands.cd (fun s => s == "/a" || s == "/b") "/h" ⟨"/b", some "/a"⟩ ["-"]).1 =
      ⟨"/a", some "/b"⟩
    ∧ (Commands.cd (fun s => s == "/a" || s == "/b") "/h" ⟨"/a", some "/b"⟩ ["-"]).1 =
      ⟨"/b", some "/a"⟩ := by
  have h := C5_cd_dash_toggle (fun s => s == "/a" || s == "/b") "/h" "/a" "/b" none
    (by decide) (by decide) (by decide) (by decide)
  exact ⟨h.1, h.2.1, h.2.2.1⟩

/-- C8: when the `cd` target fails the directory change (missing or not a
directory, i.e. `set_current_dir` errors), the failure is reported and the
session state is untouched: the working directory and the previous directory
keep their prior values. -/
theorem C8_cd_failure_state_unchanged (dirOk : String → Bool) (home : String)
    (st : Commands.CdState) (args : List String) (target : String)
    (htgt : Commands.cdTarget home st args = some target)
    (hfail : dirOk target = false) :
    Commands.cd dirOk home st args = (st, Commands.CdOutcome.chdirError target) := by
  unfold Commands.cd
  rw [htgt]
  simp [hfail]

/-- Witness for C8: `cd /nope` with a failing directory change leaves both
the working directory and the previous directory unchanged. -/
theorem C8_cd_failure_state_unchanged_witness :
    Commands.cd (fun _ => false) "/h" ⟨"/a", some "/p"⟩ ["/nope"] =
      (⟨"/a", some "/p"⟩, Commands.CdOutcome.chdirError "/nope") :=
  C8_cd_failure_state_unchanged (fun _ => false) "/h" ⟨"/a", some "/p"⟩ ["/nope"] "/nope"
    (by decide) rfl

/-- The spawn loop on an all-spawnable pipeline produces exactly the expected
spawn events and records every visited stage index in `children`. -/
theorem Commands.pipedGo_ok (n : Nat) :
    ∀ (rest : List (List String)) (i : Nat) (prev : Option Nat) (children : List Nat),
    (∀ c ∈ rest, c ≠ []) →
    Commands.pipedGo (fun _ => true) n rest i prev children =
      (Commands.expectedSpawns n rest i prev, children ++ List.range' i rest.length, false) := by
  intro rest
  induction rest with
  | nil =>
    intro i prev children _
    simp [Commands.pipedGo, Commands.expectedSpawns]
  | cons cmd rest ih =>
    intro i prev children hne
    obtain ⟨prog, cargs, rfl⟩ : ∃ p c, cmd = p :: c := by
      cases cmd with
      | nil => exact absurd rfl (hne [] (by simp))
      | cons p c => exact ⟨p, c, rfl⟩
    have ih' := ih (i + 1) (if i = n - 1 then none else some i) (children ++ [i])
      (fun c hc => hne c (List.mem_cons_of_mem _ hc))
    simp [Commands.pipedGo, Commands.expectedSpawns, ih', List.range'_succ]

/-- The spawn loop when the first failing stage is at relative position `k`:
the stages before `k` are spawned with the expected wiring, the failure is
reported, and the loop aborts (`true`) without reaching later stages. -/
theorem Commands.pipedGo_fail (ok : String → Bool) (n : Nat) :
    ∀ (rest : List (List String)) (k i : Nat) (prev : Option Nat) (children : List Nat),
    (∀ c ∈ rest, c ≠ []) → k < rest.length →
    (∀ j, j < k → ok ((rest.getD j []).headD "") = true) →
    ok ((rest.getD k []).headD "") = false →
    Commands.pipedGo ok n rest i prev children =
      (Commands.expectedSpawns n (rest.take k) i prev ++
        [Commands.PipeEvent.spawnError ((rest.getD k []).headD "")],
        children ++ List.range' i k, true) := by
  intro rest
  induction rest with
  | nil =>
    intro k i prev children _ hk
    simp at hk
  | cons cmd rest ih =>
    intro k i prev children hne hk hbefore hfail
    obtain ⟨prog, cargs, rfl⟩ : ∃ p c, cmd = p :: c := by
      cases cmd with
      | nil => exact absurd rfl (hne [] (by simp))
      | cons p c => exact ⟨p, c, rfl⟩
    cases k with
    | zero =>
      have hp : ok prog = false := by simpa using hfail
      simp [Commands.pipedGo, hp, Commands.expectedSpawns]
    | succ k =>
      have hp : ok prog = true := by simpa using hbefore 0 (Nat.succ_pos k)
      have ih' := ih k (i + 1) (if i = n - 1 then none else some i) (children ++ [i])
        (fun c hc => hne c (List.mem_cons_of_mem _ hc))
        (by simpa using hk)
        (fun j hj => by simpa using hbefore (j + 1) (by omega))
        (by simpa using hfail)
      simp [Commands.pipedGo, hp, ih', Commands.expectedSpawns, List.take_succ_cons,
        List.range'_succ]

/-- Every event produced by `expectedSpawns` is a `spawned` event whose stage
index lies in the covered range. -/
theorem Commands.mem_expectedSpawns (n : Nat) :
    ∀ (l : List (List String)) (i : Nat) (prev : Option Nat) (ev : Commands.PipeEvent),
    ev ∈ Commands.expectedSpawns n l i prev →
    ∃ j spec, ev = Commands.PipeEvent.spawned j spec ∧ i ≤ j ∧ j < i + l.length := by
  intro l
  induction l with
  | nil =>
    intro i prev ev h
    simp [Commands.expectedSpawns] at h
  | cons cmd rest ih =>
    intro i prev ev h
    simp only [Commands.expectedSpawns, List.mem_cons] at h
    rcases h with rfl | h
    · exact ⟨i, _, rfl, Nat.le_refl i, by simp⟩
    · obtain ⟨j, spec, rfl, hj1, hj2⟩ := ih (i + 1) _ ev h
      refine ⟨j, spec, rfl, by omega, ?_⟩
      simp only [List.length_cons]
      omega

/-- Closed form of `expectedSpawns` along the chained `prev` register: stage
`j` reads from stage `j - 1` (stage 0 inherits), writes piped except for the
last stage, always inherits standard error. -/
theorem Commands.expectedSpawns_formula (n : Nat) :
    ∀ (rest : List (List String)) (i : Nat), i + rest.length ≤ n →
    Commands.expectedSpawns n rest i (if i = 0 then none else some (i - 1)) =
      (List.range' i rest.length).map (fun j =>
        Commands.PipeEvent.spawned j
          { prog := (rest.getD (j - i) []).headD "", args := (rest.getD (j - i) []).tail,
            stdin := if j = 0 then Commands.IoSpec.inherit
              else Commands.IoSpec.fromStage (j - 1),
            stdout := if j = n - 1 then Commands.IoSpec.inherit
              else Commands.IoSpec.piped,
            stderr := Commands.IoSpec.inherit }) := by
  intro rest
  induction rest with
  | nil =>
    intro i h
    simp [Commands.expectedSpawns]
  | cons cmd rest ih =>
    intro i h
    rw [show (cmd :: rest).length = rest.length + 1 from rfl, List.range'_succ, List.map_cons]
    simp only [Commands.expectedSpawns]
    congr 1
    · by_cases h0 : i = 0 <;> simp [Commands.stdinOf, h0]
    · cases rest with
      | nil => simp [Commands.expectedSpawns]
      | cons r rs =>
        have hlen : i + (rs.length + 2) ≤ n := by
          simp only [List.length_cons] at h
          omega
        have hne : ¬(i = n - 1) := by omega
        rw [if_neg hne,
          show (some i : Option Nat) = (if i + 1 = 0 then none else some (i + 1 - 1)) from by simp,
          ih (i + 1) (by simp only [List.length_cons]; omega)]
        apply List.map_congr_left
        intro j hj
        rcases List.mem_range'_1.mp hj with ⟨hj1, hj2⟩
        have hji : j - i = (j - (i + 1)) + 1 := by omega
        rw [hji, List.getD_cons_succ]

/-- On an all-spawnable multi-stage pipeline the executor's trace is the
expected spawns followed by one wait per stage, in spawn order. -/
theorem Commands.execute_piped_ok_eq (cmds : List (List String))
    (h2 : 2 ≤ cmds.length) (hne : ∀ c ∈ cmds, c ≠ []) :
    Commands.execute_piped_commands (fun _ => true) cmds =
      Commands.expectedSpawns cmds.length cmds 0 none ++
        (List.range' 0 cmds.length).map Commands.PipeEvent.waited := by
  have hnil : ¬(cmds = []) := by
    intro h
    rw [h] at h2
    simp at h2
  have hlen : ¬(cmds.length = 1) := by omega
  unfold Commands.execute_piped_commands
  rw [if_neg hnil, if_neg hlen, Commands.pipedGo_ok cmds.length cmds 0 none [] hne]
  simp

/-- C2: in a multi-stage pipeline of non-empty command vectors, stages are
spawned left to right; stage 0 inherits the parent's standard input and every
later stage reads the previous stage's captured standard output; every stage
except the last has its standard output piped while the last inherits it;
every stage's standard error is inherited; and every stage is waited on, in
spawn order.  A single-stage pipeline spawns its one command vector with
inherited standard output and error and waits for it. -/
theorem C2_pipeline_wiring (cmds : List (List String)) (prog : String) (args : List String)
    (h2 : 2 ≤ cmds.length) (hne : ∀ c ∈ cmds, c ≠ []) :
    Commands.execute_piped_commands (fun _ => true) cmds =
      (List.range cmds.length).map (fun j =>
        Commands.PipeEvent.spawned j
          { prog := (cmds.getD j []).headD "", args := (cmds.getD j []).tail,
            stdin := if j = 0 then Commands.IoSpec.inherit
              else Commands.IoSpec.fromStage (j - 1),
            stdout := if j = cmds.length - 1 then Commands.IoSpec.inherit
              else Commands.IoSpec.piped,
            stderr := Commands.IoSpec.inherit })
        ++ (List.range cmds.length).map Commands.PipeEvent.waited
    ∧ Commands.execute_piped_commands (fun _ => true) [prog :: args] =
      [Commands.PipeEvent.spawned 0
        { prog := prog, args := args, stdin := Commands.IoSpec.inherit,
          stdout := Commands.IoSpec.inherit, stderr := Commands.IoSpec.inherit },
        Commands.PipeEvent.waited 0] := by
  constructor
  · rw [Commands.execute_piped_ok_eq cmds h2 hne]
    rw [show (none : Option Nat) = (if (0 : Nat) = 0 then none else some (0 - 1)) from by simp]
    rw [Commands.expectedSpawns_formula cmds.length cmds 0 (by omega)]
    simp [List.range_eq_range']
  · simp [Commands.execute_piped_commands]

/-- Witness for C2 at the three-stage pipeline `a x | b | c` and the single
command `echo hi`. -/
theorem C2_pipeline_wiring_witness :
    Commands.execute_piped_commands (fun _ => true) [["a", "x"], ["b"], ["c"]] =
      [Commands.PipeEvent.spawned 0
        { prog := "a", args := ["x"], stdin := Commands.IoSpec.inherit,
          stdout := Commands.IoSpec.piped, stderr := Commands.IoSpec.inherit },
        Commands.PipeEvent.spawned 1
        { prog := "b", args := [], stdin := Commands.IoSpec.fromStage 0,
          stdout := Commands.IoSpec.piped, stderr := Commands.IoSpec.inherit },
        Commands.PipeEvent.spawned 2
        { prog := "c", args := [], stdin := Commands.IoSpec.fromStage 1,
          stdout := Commands.IoSpec.inherit, stderr := Commands.IoSpec.inherit },
        Commands.PipeEvent.waited 0, Commands.PipeEvent.waited 1,
        Commands.PipeEvent.waited 2]
    ∧ Commands.execute_piped_commands (fun _ => true) [["echo", "hi"]] =
      [Commands.PipeEvent.spawned 0
        { prog := "echo", args := ["hi"], stdin := Commands.IoSpec.inherit,
          stdout := Commands.IoSpec.inherit, stderr := Commands.IoSpec.inherit },
        Commands.PipeEvent.waited 0] := by
  have h := C2_pipeline_wiring [["a", "x"], ["b"], ["c"]] "echo" ["hi"]
    (by decide) (by decide)
  exact ⟨h.1.trans (by decide), h.2.trans (by decide)⟩

/-- C6 counterexample: in the pipeline `a | bad | c` where spawning `bad`
fails, stage 0 is spawned but is never waited on — the executor returns
without awaiting the already-spawned process, so "every spawned process is
waited on exactly once" is false on the spawn-failure path. -/
theorem C6_counterexample :
    Commands.PipeEvent.spawned 0
      { prog := "a", args := [], stdin := Commands.IoSpec.inherit,
        stdout := Commands.IoSpec.piped, stderr := Commands.IoSpec.inherit } ∈
      Commands.execute_piped_commands (fun s => !(s == "bad")) [["a"], ["bad"], ["c"]]
    ∧ Commands.PipeEvent.waited 0 ∉
      Commands.execute_piped_commands (fun s => !(s == "bad")) [["a"], ["bad"], ["c"]] := by
  decide

/-- C6 amended: when spawning stage `k` fails, the error is reported, no
stage at index `k` or later is spawned, and nothing at all is waited on —
already-spawned stages are left unawaited because the executor returns
immediately.  Only on the all-successful path is every stage waited on
exactly once. -/
theorem C6_amended (ok : String → Bool) (cmds : List (List String)) (k : Nat)
    (hne : ∀ c ∈ cmds, c ≠ []) (h2 : 2 ≤ cmds.length) (hk : k < cmds.length)
    (hbefore : ∀ j, j < k → ok ((cmds.getD j []).headD "") = true)
    (hfail : ok ((cmds.getD k []).headD "") = false) :
    Commands.execute_piped_commands ok cmds =
      Commands.expectedSpawns cmds.length (cmds.take k) 0 none ++
        [Commands.PipeEvent.spawnError ((cmds.getD k []).headD "")]
    ∧ (∀ i, Commands.PipeEvent.waited i ∉ Commands.execute_piped_commands ok cmds)
    ∧ (∀ j spec,
        Commands.PipeEvent.spawned j spec ∈ Commands.execute_piped_commands ok cmds →
        j < k)
    ∧ (∀ i, i < cmds.length →
        List.count (Commands.PipeEvent.waited i)
          (Commands.execute_piped_commands (fun _ => true) cmds) = 1) := by
  have hnil : ¬(cmds = []) := by
    intro h
    rw [h] at h2
    simp at h2
  have hlen1 : ¬(cmds.length = 1) := by omega
  have heq : Commands.execute_piped_commands ok cmds =
      Commands.expectedSpawns cmds.length (cmds.take k) 0 none ++
        [Commands.PipeEvent.spawnError ((cmds.getD k []).headD "")] := by
    unfold Commands.execute_piped_commands
    rw [if_neg hnil, if_neg hlen1,
      Commands.pipedGo_fail ok cmds.length cmds k 0 none [] hne hk hbefore hfail]
    simp
  refine ⟨heq, ?_, ?_, ?_⟩
  · intro i hmem
    rw [heq] at hmem
    rcases List.mem_append.mp hmem with hmem | hmem
    · obtain ⟨j, spec, hEq, _, _⟩ := Commands.mem_expectedSpawns _ _ _ _ _ hmem
      exact Commands.PipeEvent.noConfusion hEq
    · simp at hmem
  · intro j spec hmem
    rw [heq] at hmem
    rcases List.mem_append.mp hmem with hmem | hmem
    · obtain ⟨j', spec', hEq, hj1, hj2⟩ := Commands.mem_expectedSpawns _ _ _ _ _ hmem
      injection hEq with hEq1 hEq2
      subst hEq1
      rw [List.length_take] at hj2
      omega
    · simp at hmem
  · intro i hi
    rw [Commands.execute_piped_ok_eq cmds h2 hne, List.count_append]
    have hz : List.count (Commands.PipeEvent.waited i)
        (Commands.expectedSpawns cmds.length cmds 0 none) = 0 := by
      rw [List.count_eq_zero]
      intro hmem
      obtain ⟨j, spec, hEq, _, _⟩ := Commands.mem_expectedSpawns _ _ _ _ _ hmem
      exact Commands.PipeEvent.noConfusion hEq
    have hinj : Function.Injective Commands.PipeEvent.waited := by
      intro a b hab
      injection hab
    have hnodup := (List.nodup_range' 0 cmds.length).map hinj
    have hmem : Commands.PipeEvent.waited i ∈
        (List.range' 0 cmds.length).map Commands.PipeEvent.waited :=
      List.mem_map_of_mem _ (List.mem_range'_1.mpr ⟨Nat.zero_le i, by omega⟩)
    rw [hz, List.count_eq_one_of_mem hnodup hmem]

/-- Witness for C6 amended on `a | bad | c` failing at stage 1: the error is
in the trace and stage 1 is never waited on. -/
theorem C6_amended_witness :
    Commands.PipeEvent.spawnError "bad" ∈
      Commands.execute_piped_commands (fun s => !(s == "bad")) [["a"], ["bad"], ["c"]]
    ∧ Commands.PipeEvent.waited 1 ∉
      Commands.execute_piped_commands (fun s => !(s == "bad")) [["a"], ["bad"], ["c"]] := by
  have h := C6_amended (fun s => !(s == "bad")) [["a"], ["bad"], ["c"]] 1
    (by decide) (by decide) (by decide)
    (by
      intro j hj
      have hj0 : j = 0 := by omega
      subst hj0
      decide)
    (by decide)
  refine ⟨?_, h.2.1 1⟩
  rw [h.1]
  decide

